import Mathlib

/-!
Shallow embedding of the Ayaka runtime core: the script interpreter
(`utils/ayaka-runtime/src/script.rs`), the plugin registration tables
(`utils/ayaka-runtime/src/plugin.rs`), and the locale fallback lookup
(`utils/ayaka-runtime/src/config.rs`).

Panics in the Rust source (`unimplemented!`, `unreachable!`, integer
division by zero and division overflow, `str::repeat` capacity overflow)
are modelled as `none`; all evaluation functions return `Option` results.
Integer arithmetic follows release-build two's-complement wrapping
semantics for `+ - *`, while `/ %` keep their always-panicking cases.
-/

namespace Ayaka

/-- Modelled from the spec: the `RawValue` sum type of the external
`ayaka-script` crate, variants `Unit | Bool(bool) | Num(i64) | Str(string)`
(spec section 3). -/
inductive RawValue where
  | unit
  | bool (b : Bool)
  | num (i : Int)
  | str (s : String)
deriving DecidableEq, Repr, Inhabited

/-- Modelled from the spec: the ordered type enum returned by
`RawValue::get_type`, with `Unit < Bool < Num < Str` (spec section 3). -/
inductive ValueType where
  | unitT
  | boolT
  | numT
  | strT
deriving DecidableEq, Repr

/-- The rank giving the order `Unit < Bool < Num < Str`. -/
def ValueType.toNat : ValueType → Nat
  | .unitT => 0
  | .boolT => 1
  | .numT => 2
  | .strT => 3

/-- Rust `Ord::max` on `ValueType` under the declared order. -/
def ValueType.max (a b : ValueType) : ValueType :=
  if a.toNat ≤ b.toNat then b else a

/-- Source `RawValue::get_type` of the external `ayaka-script` crate. -/
def RawValue.get_type : RawValue → ValueType
  | .unit => .unitT
  | .bool _ => .boolT
  | .num _ => .numT
  | .str _ => .strT

/-- Modelled from the spec: the boolean coercion `RawValue::get_bool` of the
external `ayaka-script` crate (`if` conditions coerce to bool, spec
section 4.4); `Unit` is falsy, numbers are truthy iff nonzero, strings
iff nonempty. -/
def RawValue.get_bool : RawValue → Bool
  | .unit => false
  | .bool b => b
  | .num i => i != 0
  | .str s => s != ""

/-- Modelled from the spec: the numeric coercion `RawValue::get_num` of the
external `ayaka-script` crate; bools promote to 0 or 1 (spec section 4.4)
and a string coerces to its byte length (witnessed by the repository test
expecting `get_num` of `Str("sodayo")` to be 6). -/
def RawValue.get_num : RawValue → Int
  | .unit => 0
  | .bool b => if b then 1 else 0
  | .num i => i
  | .str s => s.utf8ByteSize

/-- Modelled from the spec: the string coercion `RawValue::get_str` of the
external `ayaka-script` crate; `Unit` stringifies to the empty string,
bools and numbers to their decimal display (spec section 4.4 Text
evaluation stringifies values, commands evaluating to `Unit` contribute
nothing). -/
def RawValue.get_str : RawValue → String
  | .unit => ""
  | .bool b => if b then "true" else "false"
  | .num i => toString i
  | .str s => s

/-! ## i64 arithmetic helpers -/

/-- Constant `2 ^ 63`, the magnitude of `i64::MIN`. -/
def i64Half : Int := 2 ^ 63

/-- Constant `2 ^ 64`. -/
def i64Size : Int := 2 ^ 64

/-- Constant `i64::MIN`. -/
def i64Min : Int := -i64Half

/-- Two's-complement wrapping of an integer into the `i64` range
(release-build semantics of Rust `+ - *` and unary negation). -/
def wrap64 (a : Int) : Int := (a + i64Half).emod i64Size - i64Half

/-- The `as u64`-style bit pattern of an `i64` value. -/
def toU64 (a : Int) : Nat := (a.emod i64Size).toNat

/-- Reads a 64-bit pattern back as an `i64`. -/
def ofU64 (n : Nat) : Int :=
  if (n : Int) < i64Half then (n : Int) else (n : Int) - i64Size

/-- Bitwise and of `i64` values, via the bit patterns. -/
def land64 (a b : Int) : Int := ofU64 (Nat.land (toU64 a) (toU64 b))

/-- Bitwise or of `i64` values, via the bit patterns. -/
def lor64 (a b : Int) : Int := ofU64 (Nat.lor (toU64 a) (toU64 b))

/-- Bitwise xor of `i64` values, via the bit patterns. -/
def lxor64 (a b : Int) : Int := ofU64 (Nat.xor (toU64 a) (toU64 b))

/-- Rust `as usize` on an `i64` value (64-bit target): the bit pattern. -/
def usizeOf (a : Int) : Nat := toU64 a

/-- Rust `str::repeat`: `none` models the guaranteed capacity-overflow
panic when the resulting byte length exceeds `usize::MAX`. -/
def strRepeat (s : String) (n : Nat) : Option String :=
  if (s.utf8ByteSize * n : Int) < i64Size then
    some (String.join (List.replicate n s))
  else
    none

/-! ## AST (the `ayaka-script` crate, shapes fixed by the match arms in
`script.rs` and spec section 4.4) -/

/-- The unary operators `+ - !`. -/
inductive UnaryOp where
  | positive
  | negative
  | lognot
deriving DecidableEq, Repr

/-- The value binary operators `+ - * / % & | ^`. -/
inductive ValBinaryOp where
  | add
  | minus
  | mul
  | div
  | mod
  | and
  | or
  | xor
deriving DecidableEq, Repr

/-- The logical binary operators `&& || == != < <= > >=`. -/
inductive LogicBinaryOp where
  | and
  | or
  | eq
  | neq
  | lt
  | le
  | gt
  | ge
deriving DecidableEq, Repr

/-- Variable references: temp (`x`) and context (`$x`). -/
inductive Ref where
  | var (n : String)
  | ctx (n : String)
deriving DecidableEq, Repr

/-- The binary operator kinds. -/
inductive BinaryOp where
  | val (op : ValBinaryOp)
  | logic (op : LogicBinaryOp)
  | assign
  | inplace (op : ValBinaryOp)
deriving DecidableEq, Repr

mutual

/-- Expressions of the script AST. -/
inductive Expr where
  | ref (r : Ref)
  | const (c : RawValue)
  | unary (op : UnaryOp) (e : Expr)
  | binary (lhs : Expr) (op : BinaryOp) (rhs : Expr)
  | call (ns : String) (name : String) (args : ExprList)
deriving Repr

/-- Argument lists of call expressions (`Vec<Expr>` in the source). -/
inductive ExprList where
  | nil
  | cons (e : Expr) (es : ExprList)
deriving Repr

end

/-- A program is a sequence of expressions (`Program(Vec<Expr>)`). -/
structure Program where
  exprs : List Expr

/-! ## Variable table and runtime -/

/-- Type `VarMap`: a mapping from identifier to `RawValue`
(`ayaka-bindings-types`); modelled as an association list with
overwriting insertion. -/
def VarMap := List (String × RawValue)
deriving DecidableEq, Inhabited

/-- Rust `HashMap::get`. -/
def VarMap.get (m : VarMap) (n : String) : Option RawValue :=
  (List.find? (fun p => p.1 == n) m).map (·.2)

/-- Rust `HashMap::insert` (overwrites any previous binding). -/
def VarMap.insert (m : VarMap) (n : String) (v : RawValue) : VarMap :=
  (n, v) :: List.filter (fun p => p.1 != n) m

/-- A loaded plugin module as the interpreter sees it: `dispatch_method`
sends a function name and evaluated arguments into the plugin and may
fail (`Result` in the source, `none` here). -/
structure Module where
  dispatch_method : String → List RawValue → Option RawValue

/-- The plugin runtime as the interpreter sees it: `Runtime::module`
looks a module up by namespace. -/
structure Runtime where
  module : String → Option Module

/-- The mutable part of `VarTable` (`script.rs`): the record locals, the
temp vars, and the global log sink (messages emitted through `warn!` and
`trylog`). -/
structure EvalState where
  locals : VarMap
  vars : VarMap
  log : List String
deriving DecidableEq

/-- Appends a warning to the log sink. -/
def pushLog (s : EvalState) (msg : String) : EvalState :=
  { s with log := s.log ++ [msg] }

/-! ## Operator tables (`script.rs` lines 99-197) -/

/-- Source `bin_num_val` (`script.rs` lines 124-135): Rust `i64` arithmetic.
`+ - *` wrap (release build); `/ %` panic (`none`) on a zero divisor and
on the `i64::MIN / -1` overflow; `& | ^` are bitwise. -/
def bin_num_val (lhs : Int) (op : ValBinaryOp) (rhs : Int) : Option Int :=
  match op with
  | .add => some (wrap64 (lhs + rhs))
  | .minus => some (wrap64 (lhs - rhs))
  | .mul => some (wrap64 (lhs * rhs))
  | .div =>
    if rhs = 0 ∨ (lhs = i64Min ∧ rhs = -1) then none
    else some (Int.tdiv lhs rhs)
  | .mod =>
    if rhs = 0 ∨ (lhs = i64Min ∧ rhs = -1) then none
    else some (Int.tmod lhs rhs)
  | .and => some (land64 lhs rhs)
  | .or => some (lor64 lhs rhs)
  | .xor => some (lxor64 lhs rhs)

/-- The `bool as i64` cast. -/
def boolToInt (b : Bool) : Int := if b then 1 else 0

/-- Source `bin_bool_val` (`script.rs` lines 111-122): arithmetic promotes the
bools to numbers; `& | ^` are the logical operations. -/
def bin_bool_val (lhs : Bool) (op : ValBinaryOp) (rhs : Bool) : Option RawValue :=
  match op with
  | .add | .minus | .mul | .div | .mod =>
    (bin_num_val (boolToInt lhs) op (boolToInt rhs)).map RawValue.num
  | .and => some (.bool (lhs && rhs))
  | .or => some (.bool (lhs || rhs))
  | .xor => some (.bool (lhs ^^ rhs))

/-- Source `bin_str_val` (`script.rs` lines 137-155): `+` concatenates, `*` with
a numeric side repeats; every other case is `unimplemented!()`
(`none`). -/
def bin_str_val (lhs : RawValue) (op : ValBinaryOp) (rhs : RawValue) : Option RawValue :=
  match op with
  | .add => some (.str (lhs.get_str ++ rhs.get_str))
  | .mul =>
    match lhs.get_type.max .numT, rhs.get_type.max .numT with
    | .strT, .strT => none
    | .numT, .strT => (strRepeat rhs.get_str (usizeOf lhs.get_num)).map RawValue.str
    | .strT, .numT => (strRepeat lhs.get_str (usizeOf rhs.get_num)).map RawValue.str
    | _, _ => none
  | _ => none

/-- The type-promotion dispatch of `bin_val` (`script.rs` lines 102-108),
applied after both operands are evaluated (the two `call`s at lines
100-101 are performed by `callExpr`). -/
def bin_val (lhs : RawValue) (op : ValBinaryOp) (rhs : RawValue) : Option RawValue :=
  match lhs.get_type.max rhs.get_type with
  | .unitT => some .unit
  | .boolT => bin_bool_val lhs.get_bool op rhs.get_bool
  | .numT => (bin_num_val lhs.get_num op rhs.get_num).map RawValue.num
  | .strT => bin_str_val lhs op rhs

/-- Source `bin_ord_logic` (`script.rs` lines 176-186), given the equality and
strict-order tests of the promoted type; `&& ||` are `unreachable!()`
(`none`). -/
def bin_ord_logic (eqf ltf : α → α → Bool) (lhs : α) (op : LogicBinaryOp) (rhs : α) :
    Option Bool :=
  match op with
  | .eq => some (eqf lhs rhs)
  | .neq => some (!eqf lhs rhs)
  | .lt => some (ltf lhs rhs)
  | .le => some (ltf lhs rhs || eqf lhs rhs)
  | .gt => some (ltf rhs lhs)
  | .ge => some (ltf rhs lhs || eqf lhs rhs)
  | _ => none

/-- Rust `Ord` on `String` (byte-lexicographic, equal to the
codepoint-lexicographic order Lean's `String` decides). -/
def strLtB (a b : String) : Bool := decide (a < b)

/-- Rust `Ord` on `bool` (`false < true`). -/
def boolLtB (a b : Bool) : Bool := !a && b

/-- Rust `Ord` on `i64`. -/
def intLtB (a b : Int) : Bool := decide (a < b)

/-- The comparison part of `bin_logic` (`script.rs` lines 161-171),
applied after both operands are evaluated: promote to the larger type and
compare; the `Unit` promoted type compares `false`. -/
def bin_logic_vals (lhs : RawValue) (op : LogicBinaryOp) (rhs : RawValue) : Option Bool :=
  match lhs.get_type.max rhs.get_type with
  | .unitT => some false
  | .boolT => bin_ord_logic (fun a b => a == b) boolLtB lhs.get_bool op rhs.get_bool
  | .numT => bin_ord_logic (fun a b => a == b) intLtB lhs.get_num op rhs.get_num
  | .strT => bin_ord_logic (fun a b => a == b) strLtB lhs.get_str op rhs.get_str

/-- Source `assign` (`script.rs` lines 188-197): the left side must be a
reference; any other expression is `unreachable!()` (`none`). -/
def assign (e : Expr) (val : RawValue) (s : EvalState) : Option (RawValue × EvalState) :=
  match e with
  | .ref (.var n) => some (.unit, { s with vars := s.vars.insert n val })
  | .ref (.ctx n) => some (.unit, { s with locals := s.locals.insert n val })
  | _ => none

/-- Source `impl Callable for Ref` (`script.rs` lines 223-238): a missing
variable logs and reads as `Unit`. -/
def callRef (r : Ref) (s : EvalState) : RawValue × EvalState :=
  match r with
  | .var n =>
    match s.vars.get n with
    | some v => (v, s)
    | none => (.unit, pushLog s "Cannot find variable")
  | .ctx n =>
    match s.locals.get n with
    | some v => (v, s)
    | none => (.unit, pushLog s "Cannot find context variable")

/-! ## The evaluator (`impl Callable for Expr`, `bin_val`, `bin_logic`,
`call`, `script.rs` lines 67-221) -/

mutual

/-- Source `impl Callable for Expr` (`script.rs` lines 67-97) together with the
operand evaluation of `bin_val` (lines 100-101) and `bin_logic` (lines
157-174) and the body of `call` (lines 199-221); `none` models a
panic. -/
def callExpr (rt : Runtime) (e : Expr) (s : EvalState) : Option (RawValue × EvalState) :=
  match e with
  | .ref r => some (callRef r s)
  | .const c => some (c, s)
  | .unary op e => do
    let (v, s1) ← callExpr rt e s
    match op with
    | .positive => some (.num v.get_num, s1)
    | .negative => some (.num (wrap64 (-v.get_num)), s1)
    | .lognot =>
      match v with
      | .unit => some (.unit, s1)
      | .bool b => some (.bool !b, s1)
      | .num i => some (.num (ofU64 ((toU64 i).xor (2 ^ 64 - 1))), s1)
      | .str _ => some (.str "", s1)
  | .binary lhs op rhs =>
    match op with
    | .val op => do
      let (l, s1) ← callExpr rt lhs s
      let (r, s2) ← callExpr rt rhs s1
      let v ← bin_val l op r
      some (v, s2)
    | .logic op =>
      match op with
      | .and => do
        let (l, s1) ← callExpr rt lhs s
        if l.get_bool then
          let (r, s2) ← callExpr rt rhs s1
          some (.bool r.get_bool, s2)
        else
          some (.bool false, s1)
      | .or => do
        let (l, s1) ← callExpr rt lhs s
        if l.get_bool then
          some (.bool true, s1)
        else
          let (r, s2) ← callExpr rt rhs s1
          some (.bool r.get_bool, s2)
      | op => do
        let (l, s1) ← callExpr rt lhs s
        let (r, s2) ← callExpr rt rhs s1
        let b ← bin_logic_vals l op r
        some (.bool b, s2)
    | .assign => do
      let (v, s1) ← callExpr rt rhs s
      assign lhs v s1
    | .inplace op => do
      let (l, s1) ← callExpr rt lhs s
      let (r, s2) ← callExpr rt rhs s1
      let v ← bin_val l op r
      assign lhs v s2
  | .call ns name args =>
    if ns = "" then
      if name = "if" then
        match args with
        | .nil => some (.unit, s)
        | .cons c .nil => do
          let (_, s1) ← callExpr rt c s
          some (.unit, s1)
        | .cons c (.cons t .nil) => do
          let (v, s1) ← callExpr rt c s
          if v.get_bool then callExpr rt t s1 else some (.unit, s1)
        | .cons c (.cons t (.cons e _)) => do
          let (v, s1) ← callExpr rt c s
          if v.get_bool then callExpr rt t s1 else callExpr rt e s1
      else
        none
    else do
      let (vs, s1) ← evalArgs rt args s
      match rt.module ns with
      | none => some (.unit, pushLog s1 ("Cannot find namespace `" ++ ns ++ "`"))
      | some m =>
        match m.dispatch_method name vs with
        | none => some (.unit, pushLog s1 ("Calling `" ++ ns ++ "." ++ name ++ "` error"))
        | some v => some (v, s1)

/-- The eager argument evaluation of `call` (`script.rs` line 211),
left to right. -/
def evalArgs (rt : Runtime) (args : ExprList) (s : EvalState) :
    Option (List RawValue × EvalState) :=
  match args with
  | .nil => some ([], s)
  | .cons e es => do
    let (v, s1) ← callExpr rt e s
    let (vs, s2) ← evalArgs rt es s1
    some (v :: vs, s2)

end

/-- The loop body of `impl Callable for Program` (`script.rs` lines
59-62): evaluate the expressions in order, keeping the last value. -/
def runExprs (rt : Runtime) : List Expr → RawValue → EvalState → Option (RawValue × EvalState)
  | [], res, s => some (res, s)
  | e :: es, _, s => do
    let (v, s1) ← callExpr rt e s
    runExprs rt es v s1

/-- Source `impl Callable for Program` (`script.rs` lines 56-65): clear the temp
vars, then run the expressions with `Unit` as the initial result. -/
def callProgram (rt : Runtime) (p : Program) (s : EvalState) : Option (RawValue × EvalState) :=
  runExprs rt p.exprs .unit { s with vars := [] }

/-! ## Text evaluation (`impl Callable for Text`, `script.rs` lines
240-265) -/

/-- Modelled from the spec: the command nodes of a `Text` (spec section
4.4), shapes fixed by the match arms in `script.rs` lines 247-257. -/
inductive Command where
  | character (name disp : String)
  | res (n : String)
  | other (cmd : String) (args : List String)
  | ctx (n : String)
deriving DecidableEq, Repr

/-- Modelled from the spec: a `Text` chunk, a plain substring or a
command. -/
inductive SubText where
  | str (s : String)
  | cmd (c : Command)
deriving DecidableEq, Repr

/-- Modelled from the spec: a `Text` is a sequence of chunks. -/
structure Text where
  subs : List SubText

/-- The value a command contributes during `Text` evaluation
(`script.rs` lines 247-258): `Character` is `Unit`; `Res` and `Other`
warn and are `Unit`; `Ctx` reads a record local. -/
def commandValue (c : Command) (s : EvalState) : RawValue × EvalState :=
  match c with
  | .character _ _ => (.unit, s)
  | .res _ => (.unit, pushLog s "Unsupported command in text.")
  | .other _ _ => (.unit, pushLog s "Unsupported command in text.")
  | .ctx n =>
    match s.locals.get n with
    | some v => (v, s)
    | none => (.unit, pushLog s "Cannot find variable")

/-- The accumulation loop of `impl Callable for Text` (`script.rs` lines
242-262): push each chunk's string onto the accumulator. -/
def textGo : List SubText → String → EvalState → String × EvalState
  | [], acc, s => (acc, s)
  | .str t :: rest, acc, s => textGo rest (acc ++ t) s
  | .cmd c :: rest, acc, s =>
    let p := commandValue c s
    textGo rest (acc ++ p.1.get_str) p.2

/-- Rust `char::is_whitespace`: the Unicode `White_Space` property, the
predicate `str::trim` drops (space, the control whitespace U+0009-U+000D,
U+0085, U+00A0, U+1680, U+2000-U+200A, U+2028, U+2029, U+202F, U+205F,
U+3000). -/
def rustIsWhitespace (c : Char) : Bool :=
  c.toNat == 0x09 || c.toNat == 0x0A || c.toNat == 0x0B || c.toNat == 0x0C ||
  c.toNat == 0x0D || c.toNat == 0x20 || c.toNat == 0x85 || c.toNat == 0xA0 ||
  c.toNat == 0x1680 ||
  (decide (0x2000 ≤ c.toNat) && decide (c.toNat ≤ 0x200A)) ||
  c.toNat == 0x2028 || c.toNat == 0x2029 || c.toNat == 0x202F ||
  c.toNat == 0x205F || c.toNat == 0x3000

/-- Rust `str::trim_start` on a character list. -/
def trimLeftChars (l : List Char) : List Char := l.dropWhile rustIsWhitespace

/-- Rust `str::trim` on a character list: drop Unicode whitespace from
both ends. -/
def trimChars (l : List Char) : List Char :=
  ((l.dropWhile rustIsWhitespace).reverse.dropWhile rustIsWhitespace).reverse

/-- Rust `str::trim`. -/
def rustTrim (s : String) : String := ⟨trimChars s.data⟩

/-- Source `impl Callable for Text` (`script.rs` lines 240-265): concatenate the
chunks, trim, wrap in `Str`. -/
def callText (t : Text) (s : EvalState) : RawValue × EvalState :=
  let p := textGo t.subs "" s
  (.str (rustTrim p.1), p.2)

/-- The string a single chunk contributes, as a function of the record
locals (which `Text` evaluation never changes). -/
def subTextStr (locals : VarMap) : SubText → String
  | .str t => t
  | .cmd (.character _ _) => ""
  | .cmd (.res _) => ""
  | .cmd (.other _ _) => ""
  | .cmd (.ctx n) => ((locals.get n).getD .unit).get_str

/-- Concatenation of a list of strings. -/
def concatStrs : List String → String
  | [] => ""
  | t :: rest => t ++ concatStrs rest

/-! ## Syntactic search for context assignments (claim C5) -/

mutual

/-- Whether an expression contains `$x = …` or `$x op= …`: an `Assign` or
`Inplace` node whose left side is a `Ref::Ctx`. -/
def containsCtxAssign : Expr → Bool
  | .ref _ => false
  | .const _ => false
  | .unary _ e => containsCtxAssign e
  | .binary lhs op rhs =>
    (match op, lhs with
     | .assign, .ref (.ctx _) => true
     | .inplace _, .ref (.ctx _) => true
     | _, _ => false)
    || containsCtxAssign lhs || containsCtxAssign rhs
  | .call _ _ args => containsCtxAssignList args

/-- Helper `containsCtxAssign` over an argument list. -/
def containsCtxAssignList : ExprList → Bool
  | .nil => false
  | .cons e es => containsCtxAssign e || containsCtxAssignList es

end

/-- The head test of `containsCtxAssign` on a binary node: whether the
node itself is a context assignment. -/
def ctxAssignHead (op : BinaryOp) (lhs : Expr) : Bool :=
  match op, lhs with
  | .assign, .ref (.ctx _) => true
  | .inplace _, .ref (.ctx _) => true
  | _, _ => false

/-! ## Plugin registration (`Runtime::load`, `plugin.rs` lines 304-389) -/

/-- A string-keyed map as an association list; `insert` returns the old
value like `HashMap::insert`. -/
def SMap (α : Type) := List (String × α)

/-- Rust `HashMap::get`. -/
def SMap.get (m : SMap α) (k : String) : Option α :=
  (List.find? (fun p => p.1 == k) m).map (·.2)

/-- Rust `HashMap::insert`: overwrites and returns the previous value. -/
def SMap.insert (m : SMap α) (k : String) (v : α) : SMap α × Option α :=
  ((k, v) :: List.filter (fun p => p.1 != k) m, SMap.get m k)

/-- Type `PluginType` (`ayaka-bindings-types`): the kind advertisement every
module returns from its `plugin_type` export (spec section 4.3). -/
structure PluginType where
  action : Bool
  text : List String
  line : List String
  game : Bool

/-- The registration tables `Runtime::load` builds (`plugin.rs` lines
314-318 and 382-388); loaded `Host`s are identified by their load
position, and the duplicate-registration warnings (`plugin.rs` lines
361-366 and 370-375) are collected as `(command, new module, old
module)` triples. -/
structure LoadState where
  modules : SMap Nat
  action_modules : List String
  text_modules : SMap String
  line_modules : SMap String
  game_modules : List String
  warnings : List (String × String × String)

/-- The command-registration loop (`plugin.rs` lines 359-367): insert each
advertised command, warning when a previous module held it. -/
def registerCmds (name : String) :
    List String → SMap String → List (String × String × String) →
    SMap String × List (String × String × String)
  | [], table, ws => (table, ws)
  | cmd :: rest, table, ws =>
    let p := table.insert cmd name
    match p.2 with
    | some oldm => registerCmds name rest p.1 (ws ++ [(cmd, name, oldm)])
    | none => registerCmds name rest p.1 ws

/-- The per-module body of the load loop (`plugin.rs` lines 350-381),
with `i` the load position standing for the instantiated `Host`. -/
def loadStep (i : Nat) (st : LoadState) (name : String) (pt : PluginType) : LoadState :=
  let action_modules := if pt.action then st.action_modules ++ [name] else st.action_modules
  let t := registerCmds name pt.text st.text_modules st.warnings
  let l := registerCmds name pt.line st.line_modules t.2
  let game_modules := if pt.game then st.game_modules ++ [name] else st.game_modules
  { modules := (st.modules.insert name i).1
    action_modules
    text_modules := t.1
    line_modules := l.1
    game_modules
    warnings := l.2 }

/-- The load loop over the resolved plugin list, numbering modules by
position. -/
def loadFrom : Nat → LoadState → List (String × PluginType) → LoadState
  | _, st, [] => st
  | i, st, (name, pt) :: rest => loadFrom (i + 1) (loadStep i st name pt) rest

/-- The empty tables at the start of `Runtime::load`. -/
def emptyLoadState : LoadState := ⟨[], [], [], [], [], []⟩

/-- Source `Runtime::load` restricted to its registration logic: fold the
resolved `(name, plugin_type)` list in load order. -/
def loadPlugins (ps : List (String × PluginType)) : LoadState :=
  loadFrom 0 emptyLoadState ps

/-- Source `Runtime::text_module` (`plugin.rs` lines 403-406): command to table
entry to module. -/
def LoadState.text_module (st : LoadState) (cmd : String) : Option Nat :=
  (st.text_modules.get cmd).bind fun key => st.modules.get key

/-- Source `Runtime::line_module` (`plugin.rs` lines 408-411): command to table
entry to module. -/
def LoadState.line_module (st : LoadState) (cmd : String) : Option Nat :=
  (st.line_modules.get cmd).bind fun key => st.modules.get key

/-! ## Locale fallback (`config.rs`) -/

/-- A locale tag; the `Locale` type of `ayaka-script-types` reduced to
its identity. -/
def Locale := String
deriving DecidableEq

/-- Modelled from the spec: the `Fallback` pair of the external
`fallback` crate, carrying a primary and a fallback option (spec section
4.5). -/
structure Fallback (α : Type) where
  primary : Option α
  fallback : Option α
deriving DecidableEq

/-- Source `Paragraph` (`config.rs` lines 11-25). -/
structure Paragraph where
  tag : String
  title : Option String
  texts : List String
  next : Option String
deriving DecidableEq

/-- Source `Game` (`config.rs` lines 29-51), the plugin config omitted; the
locale-keyed maps are association lists. -/
structure Game where
  title : String
  author : String
  paras : SMap (List Paragraph)
  props : SMap String
  res : SMap VarMap
  base_lang : Locale

/-- Modelled from the spec: `Locale::choose_from` of the external
`ayaka-script-types` crate — select the best match for the target from
the available keys, `none` when nothing matches (spec section 4.5); the
matching strategy itself is a parameter. -/
def Chooser := Locale → List Locale → Option Locale

/-- Source `Game::choose_from_keys` (`config.rs` lines 64-66): best match among
the map's keys, defaulting to the base language. -/
def Game.choose_from_keys (g : Game) (choose : Chooser) (loc : Locale)
    (keys : List Locale) : Locale :=
  (choose loc keys).getD g.base_lang

/-- Source `Game::find_para` (`config.rs` lines 68-77): first paragraph with the
tag in the given locale. -/
def Game.find_para (g : Game) (loc : Locale) (tag : String) : Option Paragraph :=
  (g.paras.get loc).bind fun ps => ps.find? (fun p => p.tag == tag)

/-- Source `Game::find_para_fallback` (`config.rs` lines 80-91). -/
def Game.find_para_fallback (g : Game) (choose : Chooser) (loc : Locale)
    (tag : String) : Fallback Paragraph :=
  let key := g.choose_from_keys choose loc (g.paras.map (·.1))
  let base_key := g.choose_from_keys choose g.base_lang (g.paras.map (·.1))
  ⟨if key = base_key then none else g.find_para key tag,
   g.find_para base_key tag⟩

/-- Source `Game::find_res` (`config.rs` lines 93-95). -/
def Game.find_res (g : Game) (loc : Locale) : Option VarMap :=
  g.res.get loc

/-- Source `Game::find_res_fallback` (`config.rs` lines 98-109). -/
def Game.find_res_fallback (g : Game) (choose : Chooser) (loc : Locale) :
    Fallback VarMap :=
  let key := g.choose_from_keys choose loc (g.res.map (·.1))
  let base_key := g.choose_from_keys choose g.base_lang (g.res.map (·.1))
  ⟨if key = base_key then none else g.find_res key,
   g.find_res base_key⟩

/-! ## Concrete fixtures for witnesses and counterexamples -/

/-- A runtime with no loaded modules. -/
def rtEmpty : Runtime := ⟨fun _ => none⟩

/-- A runtime with one module `m` whose function `f` returns `Num 42` and
whose other functions fail. -/
def rtDemo : Runtime :=
  ⟨fun ns =>
    if ns = "m" then
      some ⟨fun name _ => if name = "f" then some (.num 42) else none⟩
    else none⟩

/-- The empty evaluation state. -/
def st0 : EvalState := ⟨[], [], []⟩

/-- Shorthand for a numeric literal expression. -/
def numE (n : Int) : Expr := .const (.num n)

/-- The condition `1 + 1 + 4 + 5 + 1 + 4 == 16` of the repository's `if`
test. -/
def exIfCond : Expr :=
  .binary
    (.binary
      (.binary
        (.binary
          (.binary (.binary (numE 1) (.val .add) (numE 1)) (.val .add) (numE 4))
          (.val .add) (numE 5))
        (.val .add) (numE 1))
      (.val .add) (numE 4))
    (.logic .eq) (numE 16)

/-- The expression `if(1 + 1 + 4 + 5 + 1 + 4 == 16, "sodayo", ~)`. -/
def exIf1 : Expr :=
  .call "" "if"
    (.cons exIfCond (.cons (.const (.str "sodayo")) (.cons (.const .unit) .nil)))

/-- The expression `if(1 + 1 == 3, "x")`. -/
def exIf2 : Expr :=
  .call "" "if"
    (.cons (.binary (.binary (numE 1) (.val .add) (numE 1)) (.logic .eq) (numE 3))
      (.cons (.const (.str "x")) .nil))

/-! ## Theorems -/

/-- Totality of `bin_num_val` away from its panicking division cases. -/
theorem bin_num_val_total (li ri : Int) (op : ValBinaryOp)
    (h : (op = .div ∨ op = .mod) → ri ≠ 0 ∧ ¬(li = i64Min ∧ ri = -1)) :
    ∃ x, bin_num_val li op ri = some x := by
  cases op <;> simp only [bin_num_val]
  case div =>
    rw [if_neg]
    · exact ⟨_, rfl⟩
    · have := h (Or.inl rfl); tauto
  case mod =>
    rw [if_neg]
    · exact ⟨_, rfl⟩
    · have := h (Or.inr rfl); tauto
  all_goals exact ⟨_, rfl⟩

/-- A bool cast to `i64` is never `i64::MIN`. -/
theorem boolToInt_ne_min (b : Bool) : boolToInt b ≠ i64Min := by
  cases b <;> decide

/-- Totality of `bin_bool_val` away from division by a false right
operand. -/
theorem bin_bool_val_total (lb rb : Bool) (op : ValBinaryOp)
    (h : (op = .div ∨ op = .mod) → boolToInt rb ≠ 0) :
    ∃ v, bin_bool_val lb op rb = some v := by
  cases op <;> simp only [bin_bool_val]
  case div =>
    obtain ⟨x, hx⟩ := bin_num_val_total (boolToInt lb) (boolToInt rb) .div
      (fun _ => ⟨h (Or.inl rfl), fun hc => boolToInt_ne_min lb hc.1⟩)
    exact ⟨_, by rw [hx]; rfl⟩
  case mod =>
    obtain ⟨x, hx⟩ := bin_num_val_total (boolToInt lb) (boolToInt rb) .mod
      (fun _ => ⟨h (Or.inr rfl), fun hc => boolToInt_ne_min lb hc.1⟩)
    exact ⟨_, by rw [hx]; rfl⟩
  all_goals exact ⟨_, rfl⟩

/-- A repetition whose byte count fits `usize` succeeds. -/
theorem strRepeat_some (s : String) (n : Nat)
    (h : (s.utf8ByteSize * n : Int) < i64Size) :
    ∃ t, strRepeat s n = some t := by
  simp only [strRepeat]
  rw [if_pos h]
  exact ⟨_, rfl⟩

/-- C1 (amended): value binary operations are total except for the
panicking cases: `Num`- or `Bool`-promoted division and modulo panic on a
divisor coercing to 0 and on the `i64::MIN / -1` overflow, and
`Str`-promoted operands admit only `+`, and `*` with exactly one `Str`
side whose repetition byte count stays below `2 ^ 64`; `Unit`-promoted
operands are total for every operator. -/
theorem c1_bin_val_totality_amended (l r : RawValue) (op : ValBinaryOp)
    (hdiv : (op = .div ∨ op = .mod) →
      (l.get_type.max r.get_type = .boolT ∨ l.get_type.max r.get_type = .numT) →
      r.get_num ≠ 0 ∧ ¬(l.get_num = i64Min ∧ r.get_num = -1))
    (hstr : l.get_type.max r.get_type = .strT →
      op = .add ∨
      (op = .mul ∧
        ((l.get_type ≠ .strT ∧
            (r.get_str.utf8ByteSize * usizeOf l.get_num : Int) < i64Size) ∨
          (l.get_type = .strT ∧ r.get_type ≠ .strT ∧
            (l.get_str.utf8ByteSize * usizeOf r.get_num : Int) < i64Size)))) :
    ∃ v, bin_val l op r = some v := by
  rcases l with _ | lb | li | ls <;> rcases r with _ | rb | ri | rs
  -- Unit, Unit
  · exact ⟨_, rfl⟩
  -- Unit, Bool
  · exact bin_bool_val_total _ _ op (fun ho => (hdiv ho (Or.inl rfl)).1)
  -- Unit, Num
  · obtain ⟨x, hx⟩ := bin_num_val_total (RawValue.get_num .unit)
      (RawValue.get_num (.num ri)) op (fun ho => hdiv ho (Or.inr rfl))
    exact ⟨.num x, by
      show (bin_num_val (RawValue.get_num .unit) op (RawValue.get_num (.num ri))).map
        RawValue.num = _
      rw [hx]; rfl⟩
  -- Unit, Str
  · rcases hstr rfl with hadd | ⟨hmul, hc⟩
    · subst hadd; exact ⟨_, rfl⟩
    · subst hmul
      rcases hc with ⟨_, hb⟩ | ⟨habs, _⟩
      · obtain ⟨t, ht⟩ := strRepeat_some (RawValue.get_str (.str rs))
          (usizeOf (RawValue.get_num .unit)) hb
        exact ⟨.str t, by
          show (strRepeat (RawValue.get_str (.str rs))
            (usizeOf (RawValue.get_num .unit))).map RawValue.str = _
          rw [ht]; rfl⟩
      · exact nomatch habs
  -- Bool, Unit
  · exact bin_bool_val_total _ _ op (fun ho => (hdiv ho (Or.inl rfl)).1)
  -- Bool, Bool
  · exact bin_bool_val_total _ _ op (fun ho => (hdiv ho (Or.inl rfl)).1)
  -- Bool, Num
  · obtain ⟨x, hx⟩ := bin_num_val_total (RawValue.get_num (.bool lb))
      (RawValue.get_num (.num ri)) op (fun ho => hdiv ho (Or.inr rfl))
    exact ⟨.num x, by
      show (bin_num_val (RawValue.get_num (.bool lb)) op
        (RawValue.get_num (.num ri))).map RawValue.num = _
      rw [hx]; rfl⟩
  -- Bool, Str
  · rcases hstr rfl with hadd | ⟨hmul, hc⟩
    · subst hadd; exact ⟨_, rfl⟩
    · subst hmul
      rcases hc with ⟨_, hb⟩ | ⟨habs, _⟩
      · obtain ⟨t, ht⟩ := strRepeat_some (RawValue.get_str (.str rs))
          (usizeOf (RawValue.get_num (.bool lb))) hb
        exact ⟨.str t, by
          show (strRepeat (RawValue.get_str (.str rs))
            (usizeOf (RawValue.get_num (.bool lb)))).map RawValue.str = _
          rw [ht]; rfl⟩
      · exact nomatch habs
  -- Num, Unit
  · obtain ⟨x, hx⟩ := bin_num_val_total (RawValue.get_num (.num li))
      (RawValue.get_num .unit) op (fun ho => hdiv ho (Or.inr rfl))
    exact ⟨.num x, by
      show (bin_num_val (RawValue.get_num (.num li)) op
        (RawValue.get_num .unit)).map RawValue.num = _
      rw [hx]; rfl⟩
  -- Num, Bool
  · obtain ⟨x, hx⟩ := bin_num_val_total (RawValue.get_num (.num li))
      (RawValue.get_num (.bool rb)) op (fun ho => hdiv ho (Or.inr rfl))
    exact ⟨.num x, by
      show (bin_num_val (RawValue.get_num (.num li)) op
        (RawValue.get_num (.bool rb))).map RawValue.num = _
      rw [hx]; rfl⟩
  -- Num, Num
  · obtain ⟨x, hx⟩ := bin_num_val_total (RawValue.get_num (.num li))
      (RawValue.get_num (.num ri)) op (fun ho => hdiv ho (Or.inr rfl))
    exact ⟨.num x, by
      show (bin_num_val (RawValue.get_num (.num li)) op
        (RawValue.get_num (.num ri))).map RawValue.num = _
      rw [hx]; rfl⟩
  -- Num, Str
  · rcases hstr rfl with hadd | ⟨hmul, hc⟩
    · subst hadd; exact ⟨_, rfl⟩
    · subst hmul
      rcases hc with ⟨_, hb⟩ | ⟨habs, _⟩
      · obtain ⟨t, ht⟩ := strRepeat_some (RawValue.get_str (.str rs))
          (usizeOf (RawValue.get_num (.num li))) hb
        exact ⟨.str t, by
          show (strRepeat (RawValue.get_str (.str rs))
            (usizeOf (RawValue.get_num (.num li)))).map RawValue.str = _
          rw [ht]; rfl⟩
      · exact nomatch habs
  -- Str, Unit
  · rcases hstr rfl with hadd | ⟨hmul, hc⟩
    · subst hadd; exact ⟨_, rfl⟩
    · subst hmul
      rcases hc with ⟨habs, _⟩ | ⟨_, _, hb⟩
      · exact absurd rfl habs
      · obtain ⟨t, ht⟩ := strRepeat_some (RawValue.get_str (.str ls))
          (usizeOf (RawValue.get_num .unit)) hb
        exact ⟨.str t, by
          show (strRepeat (RawValue.get_str (.str ls))
            (usizeOf (RawValue.get_num .unit))).map RawValue.str = _
          rw [ht]; rfl⟩
  -- Str, Bool
  · rcases hstr rfl with hadd | ⟨hmul, hc⟩
    · subst hadd; exact ⟨_, rfl⟩
    · subst hmul
      rcases hc with ⟨habs, _⟩ | ⟨_, _, hb⟩
      · exact absurd rfl habs
      · obtain ⟨t, ht⟩ := strRepeat_some (RawValue.get_str (.str ls))
          (usizeOf (RawValue.get_num (.bool rb))) hb
        exact ⟨.str t, by
          show (strRepeat (RawValue.get_str (.str ls))
            (usizeOf (RawValue.get_num (.bool rb)))).map RawValue.str = _
          rw [ht]; rfl⟩
  -- Str, Num
  · rcases hstr rfl with hadd | ⟨hmul, hc⟩
    · subst hadd; exact ⟨_, rfl⟩
    · subst hmul
      rcases hc with ⟨habs, _⟩ | ⟨_, _, hb⟩
      · exact absurd rfl habs
      · obtain ⟨t, ht⟩ := strRepeat_some (RawValue.get_str (.str ls))
          (usizeOf (RawValue.get_num (.num ri))) hb
        exact ⟨.str t, by
          show (strRepeat (RawValue.get_str (.str ls))
            (usizeOf (RawValue.get_num (.num ri)))).map RawValue.str = _
          rw [ht]; rfl⟩
  -- Str, Str
  · rcases hstr rfl with hadd | ⟨_, hc⟩
    · subst hadd; exact ⟨_, rfl⟩
    · rcases hc with ⟨habs, _⟩ | ⟨_, habs, _⟩ <;> exact absurd rfl habs

/-- C1 (counterexample): evaluating `1 / 0` does not return a `RawValue`:
the interpreter panics (Rust integer division by zero), refuting the
claim that every value binary operation on every operand pair is
total. -/
theorem c1_div_by_zero_counterexample :
    callExpr rtEmpty (.binary (numE 1) (.val .div) (numE 0)) st0 = none := by
  decide

/-- C1 (witness): division of `Num 7` by `Num 2` satisfies the amended
hypotheses and produces a value. -/
theorem c1_bin_val_totality_witness :
    ∃ v, bin_val (.num 7) .div (.num 2) = some v :=
  c1_bin_val_totality_amended (.num 7) (.num 2) .div (by decide) (by decide)

/-- C2 (counterexample): `Unit == Unit` evaluates to `Bool(false)`, not
`Bool(true)` as the claim states. -/
theorem c2_unit_eq_counterexample :
    callExpr rtEmpty (.binary (.const .unit) (.logic .eq) (.const .unit)) st0 =
        some (.bool false, st0)
    ∧ callExpr rtEmpty (.binary (.const .unit) (.logic .eq) (.const .unit)) st0 ≠
        some (.bool true, st0) := by
  constructor <;> decide

/-- C2 (amended): when both operands evaluate to `Unit`, every comparison
operator among `== != < <= > >=` returns `Bool(false)` — including
equality, which does not treat `Unit` as equal to `Unit`. -/
theorem c2_unit_comparisons_amended (rt : Runtime) (lhs rhs : Expr)
    (op : LogicBinaryOp) (s s1 s2 : EvalState)
    (hl : callExpr rt lhs s = some (.unit, s1))
    (hr : callExpr rt rhs s1 = some (.unit, s2))
    (hop : op ≠ .and ∧ op ≠ .or) :
    callExpr rt (.binary lhs (.logic op) rhs) s = some (.bool false, s2) := by
  rcases op with _ | _ | _ | _ | _ | _ | _ | _ <;>
    first
    | exact absurd rfl hop.1
    | exact absurd rfl hop.2
    | (rw [callExpr.eq_def];
       simp [hl, hr, bin_logic_vals, RawValue.get_type, ValueType.max,
         ValueType.toNat])

/-- C2 (witness): the amended statement at `Unit < Unit`. -/
theorem c2_unit_comparisons_witness :
    callExpr rtEmpty (.binary (.const .unit) (.logic .lt) (.const .unit)) st0 =
      some (.bool false, st0) :=
  c2_unit_comparisons_amended rtEmpty (.const .unit) (.const .unit) .lt st0 st0 st0
    (by decide) (by decide) (by decide)

/-- C3 (counterexample): `"a" - "b"` does not log-and-evaluate to `Unit`:
the interpreter panics (`unimplemented!`), so the evaluation produces no
value at all. -/
theorem c3_str_minus_counterexample :
    callExpr rtEmpty (.binary (.const (.str "a")) (.val .minus) (.const (.str "b"))) st0 =
      none := by
  decide

/-- C3 (amended): for a value binary operator other than `+` and `*`
applied to `Str`-promoted operands, and for `*` when both sides are
`Str`, evaluation panics (`unimplemented!`, modelled as `none`) instead
of logging a warning and returning `Unit`. -/
theorem c3_str_ops_panic_amended (rt : Runtime) (lhs rhs : Expr) (op : ValBinaryOp)
    (l r : RawValue) (s s1 s2 : EvalState)
    (hl : callExpr rt lhs s = some (l, s1))
    (hr : callExpr rt rhs s1 = some (r, s2))
    (ht : l.get_type.max r.get_type = .strT)
    (hop : op ≠ .add)
    (hmul : op = .mul → l.get_type = .strT ∧ r.get_type = .strT) :
    callExpr rt (.binary lhs (.val op) rhs) s = none := by
  rw [callExpr.eq_def]
  rcases op with _ | _ | _ | _ | _ | _ | _ | _
  case add => exact absurd rfl hop
  case mul =>
    obtain ⟨hls, hrs⟩ := hmul rfl
    rcases l with _ | _ | _ | ls
    · exact nomatch hls
    · exact nomatch hls
    · exact nomatch hls
    · rcases r with _ | _ | _ | rs
      · exact nomatch hrs
      · exact nomatch hrs
      · exact nomatch hrs
      · simp [hl, hr, bin_val, bin_str_val, RawValue.get_type, ValueType.max,
          ValueType.toNat]
  all_goals simp [hl, hr, bin_val, ht, bin_str_val]

/-- C3 (witness): the amended statement at `"a" % "b"`. -/
theorem c3_str_ops_panic_witness :
    callExpr rtEmpty (.binary (.const (.str "a")) (.val .mod) (.const (.str "b"))) st0 =
      none :=
  c3_str_ops_panic_amended rtEmpty (.const (.str "a")) (.const (.str "b")) .mod
    (.str "a") (.str "b") st0 st0 st0 (by decide) (by decide) (by decide)
    (by decide) (by simp)

set_option maxRecDepth 100000 in
/-- C6: the `if` intrinsic evaluates the condition and then only the
selected branch (the equations show the unselected branch is never
evaluated); an omitted else argument yields `Unit`; and the two literal
programs of the spec evaluate to `Str("sodayo")` and `Unit`
respectively. -/
theorem c6_if_intrinsic :
    (∀ (rt : Runtime) (c t e : Expr) (rest : ExprList) (s : EvalState),
      callExpr rt (.call "" "if" (.cons c (.cons t (.cons e rest)))) s =
        (callExpr rt c s).bind fun p =>
          if p.1.get_bool then callExpr rt t p.2 else callExpr rt e p.2)
    ∧ (∀ (rt : Runtime) (c t : Expr) (s : EvalState),
      callExpr rt (.call "" "if" (.cons c (.cons t .nil))) s =
        (callExpr rt c s).bind fun p =>
          if p.1.get_bool then callExpr rt t p.2 else some (.unit, p.2))
    ∧ callExpr rtEmpty exIf1 st0 = some (.str "sodayo", st0)
    ∧ callExpr rtEmpty exIf2 st0 = some (.unit, st0) := by
  refine ⟨?_, ?_, by decide, by decide⟩
  · intro rt c t e rest s
    cases h : callExpr rt c s with
    | none => rw [callExpr.eq_def]; simp [h]
    | some p => cases p; rw [callExpr.eq_def]; simp [h]
  · intro rt c t s
    cases h : callExpr rt c s with
    | none => rw [callExpr.eq_def]; simp [h]
    | some p => cases p; rw [callExpr.eq_def]; simp [h]

/-- C8: a call into a non-empty namespace first evaluates all arguments
eagerly; a missing module logs and yields `Unit`, a failing plugin call
logs and yields `Unit`, and a successful call yields the plugin's
value. -/
theorem c8_module_call (rt : Runtime) (ns name : String) (args : ExprList)
    (s s1 : EvalState) (vs : List RawValue)
    (hns : ns ≠ "") (hargs : evalArgs rt args s = some (vs, s1)) :
    (rt.module ns = none →
      callExpr rt (.call ns name args) s =
        some (.unit, pushLog s1 ("Cannot find namespace `" ++ ns ++ "`")))
    ∧ (∀ m, rt.module ns = some m → m.dispatch_method name vs = none →
      callExpr rt (.call ns name args) s =
        some (.unit, pushLog s1 ("Calling `" ++ ns ++ "." ++ name ++ "` error")))
    ∧ (∀ m v, rt.module ns = some m → m.dispatch_method name vs = some v →
      callExpr rt (.call ns name args) s = some (v, s1)) := by
  refine ⟨fun hm => ?_, fun m hm hd => ?_, fun m v hm hd => ?_⟩ <;>
    rw [callExpr.eq_def] <;> simp [hns, hargs, hm] <;> simp [hd]

/-- C8 (witness): calling the absent namespace `zz` on the demo runtime
logs and evaluates to `Unit`. -/
theorem c8_module_call_witness :
    callExpr rtDemo (.call "zz" "g" .nil) st0 =
      some (.unit, pushLog st0 ("Cannot find namespace `" ++ "zz" ++ "`")) :=
  (c8_module_call rtDemo "zz" "g" .nil st0 st0 [] (by decide) (by decide)).1
    (by simp [rtDemo])

/-- C10: in both paragraph and resource fallback lookup, the primary is
`none` exactly when the locale key chosen for the target equals the key
chosen for the base language, otherwise the primary is the lookup under
the chosen key; the fallback is always the lookup under the base key. -/
theorem c10_fallback_contract (g : Game) (choose : Chooser) (loc : Locale)
    (tag : String) :
    ((g.choose_from_keys choose loc (g.paras.map (·.1)) =
        g.choose_from_keys choose g.base_lang (g.paras.map (·.1)) →
      (g.find_para_fallback choose loc tag).primary = none)
    ∧ (g.choose_from_keys choose loc (g.paras.map (·.1)) ≠
        g.choose_from_keys choose g.base_lang (g.paras.map (·.1)) →
      (g.find_para_fallback choose loc tag).primary =
        g.find_para (g.choose_from_keys choose loc (g.paras.map (·.1))) tag)
    ∧ (g.find_para_fallback choose loc tag).fallback =
        g.find_para (g.choose_from_keys choose g.base_lang (g.paras.map (·.1))) tag)
    ∧ ((g.choose_from_keys choose loc (g.res.map (·.1)) =
        g.choose_from_keys choose g.base_lang (g.res.map (·.1)) →
      (g.find_res_fallback choose loc).primary = none)
    ∧ (g.choose_from_keys choose loc (g.res.map (·.1)) ≠
        g.choose_from_keys choose g.base_lang (g.res.map (·.1)) →
      (g.find_res_fallback choose loc).primary =
        g.find_res (g.choose_from_keys choose loc (g.res.map (·.1))))
    ∧ (g.find_res_fallback choose loc).fallback =
        g.find_res (g.choose_from_keys choose g.base_lang (g.res.map (·.1)))) := by
  refine ⟨⟨fun h => ?_, fun h => ?_, ?_⟩, ⟨fun h => ?_, fun h => ?_, ?_⟩⟩ <;>
    simp [Game.find_para_fallback, Game.find_res_fallback, *]

/-- C10 (witness): a two-locale game where the chosen key differs from
the base key, exercising the primary lookup. -/
theorem c10_fallback_contract_witness :
    (Game.find_para_fallback
      ⟨"t", "a", [("en", [⟨"p", none, [], none⟩]), ("ja", [])], [], [], "en"⟩
      (fun l _ => some l) "ja" "p").primary =
      Game.find_para
        ⟨"t", "a", [("en", [⟨"p", none, [], none⟩]), ("ja", [])], [], [], "en"⟩
        "ja" "p" :=
  (c10_fallback_contract
      ⟨"t", "a", [("en", [⟨"p", none, [], none⟩]), ("ja", [])], [], [], "en"⟩
      (fun l _ => some l) "ja" "p").1.2.1 (by decide)


/-- Appending a final expression to the loop: the program's result is the
final expression's evaluation in the state left by the earlier ones. -/
theorem runExprs_append_last (rt : Runtime) (e : Expr) :
    ∀ (es : List Expr) (v0 : RawValue) (s : EvalState),
      runExprs rt (es ++ [e]) v0 s =
        (runExprs rt es v0 s).bind fun p => callExpr rt e p.2
  | [], v0, s => by
    cases h : callExpr rt e s with
    | none => simp [runExprs, h]
    | some p => cases p; simp [runExprs, h]
  | a :: es, v0, s => by
    cases h : callExpr rt a s with
    | none => simp [runExprs, h]
    | some p =>
      cases p
      simp only [List.cons_append, runExprs, h, Option.some_bind]
      exact runExprs_append_last rt e es _ _

/-- C4: evaluating a program first clears the temp-variable scope and
returns the value of its last expression, evaluated in the state the
earlier expressions produced; the empty program returns `Unit`. -/
theorem c4_program_semantics (rt : Runtime) (s : EvalState) :
    callProgram rt ⟨[]⟩ s = some (.unit, { s with vars := [] })
    ∧ ∀ (es : List Expr) (e : Expr),
      callProgram rt ⟨es ++ [e]⟩ s =
        (runExprs rt es .unit { s with vars := [] }).bind fun p =>
          callExpr rt e p.2 := by
  exact ⟨rfl, fun es e => runExprs_append_last rt e es .unit { s with vars := [] }⟩


/-- The head of `dropWhile` never satisfies the dropped predicate. -/
theorem head?_dropWhile_not (p : Char → Bool) :
    ∀ (l : List Char) (a : Char), (l.dropWhile p).head? = some a → p a = false
  | [], a => by simp
  | c :: l, a => by
    by_cases hc : p c
    · rw [List.dropWhile_cons_of_pos hc]
      exact head?_dropWhile_not p l a
    · rw [List.dropWhile_cons_of_neg hc]
      intro h
      simp only [List.head?_cons, Option.some.injEq] at h
      subst h
      simpa using hc

/-- Dropping a prefix keeps the last element when anything remains. -/
theorem getLast?_dropWhile_ne_nil (p : Char → Bool) :
    ∀ l : List Char, l.dropWhile p ≠ [] → (l.dropWhile p).getLast? = l.getLast?
  | [], h => by simp at h
  | c :: l, h => by
    by_cases hc : p c
    · rw [List.dropWhile_cons_of_pos hc] at h ⊢
      rw [getLast?_dropWhile_ne_nil p l h]
      cases l with
      | nil => simp at h
      | cons b m => rw [List.getLast?_cons_cons]
    · rw [List.dropWhile_cons_of_neg hc]

/-- The trimmed character list never starts with whitespace. -/
theorem trimChars_head (l : List Char) :
    ((trimChars l).head?.all fun c => !rustIsWhitespace c) = true := by
  unfold trimChars
  rw [List.head?_reverse]
  by_cases hz :
      List.dropWhile rustIsWhitespace (List.dropWhile rustIsWhitespace l).reverse = []
  · rw [hz]; rfl
  · rw [getLast?_dropWhile_ne_nil rustIsWhitespace _ hz, List.getLast?_reverse]
    cases hh : (List.dropWhile rustIsWhitespace l).head? with
    | none => rfl
    | some a => simp [hh, head?_dropWhile_not rustIsWhitespace l a hh]

/-- The trimmed character list never ends with whitespace. -/
theorem trimChars_getLast (l : List Char) :
    ((trimChars l).getLast?.all fun c => !rustIsWhitespace c) = true := by
  unfold trimChars
  rw [List.getLast?_reverse]
  cases hz :
      (List.dropWhile rustIsWhitespace
        (List.dropWhile rustIsWhitespace l).reverse).head? with
  | none => rfl
  | some a =>
    simp [hz, head?_dropWhile_not rustIsWhitespace _ a hz]

/-- Each command contributes `subTextStr` of the record locals and leaves
the locals and temp vars unchanged. -/
theorem commandValue_spec (c : Command) (s : EvalState) :
    (commandValue c s).1.get_str = subTextStr s.locals (.cmd c)
    ∧ (commandValue c s).2.locals = s.locals
    ∧ (commandValue c s).2.vars = s.vars := by
  cases c with
  | character a b => exact ⟨rfl, rfl, rfl⟩
  | res n => exact ⟨rfl, rfl, rfl⟩
  | other n args => exact ⟨rfl, rfl, rfl⟩
  | ctx n =>
    cases h : s.locals.get n with
    | none => simp [commandValue, subTextStr, h, pushLog]
    | some v => simp [commandValue, subTextStr, h]

/-- The accumulation loop appends the chunk strings and touches only the
log. -/
theorem textGo_spec :
    ∀ (subs : List SubText) (acc : String) (s : EvalState),
      (textGo subs acc s).1 = acc ++ concatStrs (subs.map (subTextStr s.locals))
      ∧ (textGo subs acc s).2.locals = s.locals
      ∧ (textGo subs acc s).2.vars = s.vars
  | [], acc, s => by
    refine ⟨?_, rfl, rfl⟩
    show acc = acc ++ ""
    rw [String.append_empty]
  | .str t :: rest, acc, s => by
    obtain ⟨h1, h2, h3⟩ := textGo_spec rest (acc ++ t) s
    refine ⟨?_, h2, h3⟩
    show (textGo rest (acc ++ t) s).1 = _
    rw [h1, List.map_cons]
    show acc ++ t ++ _ = acc ++ (t ++ _)
    rw [String.append_assoc]
  | .cmd c :: rest, acc, s => by
    obtain ⟨hc1, hc2, hc3⟩ := commandValue_spec c s
    obtain ⟨h1, h2, h3⟩ :=
      textGo_spec rest (acc ++ (commandValue c s).1.get_str) (commandValue c s).2
    rw [hc2] at h1 h2
    rw [hc3] at h3
    refine ⟨?_, ?_, ?_⟩
    · show (textGo rest (acc ++ (commandValue c s).1.get_str) (commandValue c s).2).1 = _
      rw [h1, hc1, List.map_cons]
      show acc ++ _ ++ _ = acc ++ (_ ++ _)
      rw [String.append_assoc]
    · exact h2
    · exact h3

/-- C7: evaluating a `Text` returns a `Str` holding the trimmed
concatenation of the plain substrings and the stringified `Ctx` values
(`Character`, `Res` and `Other` commands contribute the empty string),
leaves the variable scopes untouched, and the result carries no leading
or trailing whitespace. -/
theorem c7_text_eval (t : Text) (s : EvalState) :
    ∃ lg : List String,
      callText t s =
        (.str (rustTrim (concatStrs (t.subs.map (subTextStr s.locals)))),
          ⟨s.locals, s.vars, lg⟩)
      ∧ ((rustTrim (concatStrs (t.subs.map (subTextStr s.locals)))).data.head?.all
          fun c => !rustIsWhitespace c) = true
      ∧ ((rustTrim (concatStrs (t.subs.map (subTextStr s.locals)))).data.getLast?.all
          fun c => !rustIsWhitespace c) = true := by
  obtain ⟨h1, h2, h3⟩ := textGo_spec t.subs "" s
  rcases hq : textGo t.subs "" s with ⟨r1, s1⟩
  rw [hq] at h1 h2 h3
  rcases s1 with ⟨lo, va, lg⟩
  simp only at h1 h2 h3
  subst h2 h3
  refine ⟨lg, ?_, ?_, ?_⟩
  · simp only [callText, hq]
    rw [h1, String.empty_append]
  · exact trimChars_head _
  · exact trimChars_getLast _


/-- Reading a reference only logs; it never changes the locals. -/
theorem callRef_snd_locals (r : Ref) (s : EvalState) :
    (callRef r s).2.locals = s.locals := by
  cases r with
  | var n => cases h : s.vars.get n <;> simp [callRef, h, pushLog]
  | ctx n => cases h : s.locals.get n <;> simp [callRef, h, pushLog]


/-- Unfolding of `containsCtxAssign` on a binary node. -/
theorem containsCtxAssign_binary_eq (op : BinaryOp) (lhs rhs : Expr) :
    containsCtxAssign (.binary lhs op rhs) =
      (ctxAssignHead op lhs || containsCtxAssign lhs || containsCtxAssign rhs) := by
  cases op <;> cases lhs <;> rfl

/-- C5 (auxiliary): evaluation of an expression free of context
assignments leaves the record locals unchanged; proved by the mutual
functional induction of the evaluator, with the matching statement for
argument lists. -/
theorem locals_frame_aux (rt : Runtime) : ∀ (e : Expr) (s : EvalState),
    containsCtxAssign e = false →
    ∀ v s', callExpr rt e s = some (v, s') → s'.locals = s.locals := by
  refine callExpr.induct rt
    (fun e s => containsCtxAssign e = false →
      ∀ v s', callExpr rt e s = some (v, s') → s'.locals = s.locals)
    (fun args s => containsCtxAssignList args = false →
      ∀ vs s', evalArgs rt args s = some (vs, s') → s'.locals = s.locals)
    ?_ ?_ ?_ ?_ ?_ ?_ ?_ ?_ ?_ ?_ ?_ ?_ ?_ ?_ ?_ ?_ ?_
  -- ref
  · intro s r _ v s' he
    have he' : some (callRef r s) = some (v, s') := he
    simp only [Option.some.injEq, Prod.ext_iff] at he'
    rw [← he'.2]
    exact callRef_snd_locals r s
  -- const
  · intro s c _ v s' he
    have he' : some (c, s) = some (v, s') := he
    simp only [Option.some.injEq, Prod.ext_iff] at he'
    rw [← he'.2]
  -- unary
  · intro s op e ih hc v s' he
    cases h1 : callExpr rt e s with
    | none => rw [callExpr.eq_def] at he; simp [h1] at he
    | some p =>
      rcases p with ⟨v1, s1⟩
      have ihc : s1.locals = s.locals :=
        ih (by simpa [containsCtxAssign] using hc) v1 s1 h1
      rw [callExpr.eq_def] at he
      cases op with
      | positive => simp [h1] at he; obtain ⟨_, hs⟩ := he; subst hs; exact ihc
      | negative => simp [h1] at he; obtain ⟨_, hs⟩ := he; subst hs; exact ihc
      | lognot =>
        cases v1 <;> simp [h1] at he <;> obtain ⟨_, hs⟩ := he <;> subst hs <;>
          exact ihc
  -- binary val
  · intro s lhs rhs op ihl ihr hc v s' he
    have hc' : containsCtxAssign lhs = false ∧ containsCtxAssign rhs = false := by
      simp only [containsCtxAssign_binary_eq, Bool.or_eq_false_iff] at hc
      exact ⟨hc.1.2, hc.2⟩
    cases h1 : callExpr rt lhs s with
    | none => rw [callExpr.eq_def] at he; simp [h1] at he
    | some p =>
      rcases p with ⟨v1, s1⟩
      cases h2 : callExpr rt rhs s1 with
      | none => rw [callExpr.eq_def] at he; simp [h1, h2] at he
      | some q =>
        rcases q with ⟨v2, s2⟩
        cases h3 : bin_val v1 op v2 with
        | none => rw [callExpr.eq_def] at he; simp [h1, h2, h3] at he
        | some v3 =>
          rw [callExpr.eq_def] at he
          simp [h1, h2, h3] at he
          obtain ⟨_, hs⟩ := he
          subst hs
          rw [ihr s1 hc'.2 v2 s2 h2, ihl hc'.1 v1 s1 h1]
  -- logic and
  · intro s lhs rhs ihl ihr hc v s' he
    have hc' : containsCtxAssign lhs = false ∧ containsCtxAssign rhs = false := by
      simp only [containsCtxAssign_binary_eq, Bool.or_eq_false_iff] at hc
      exact ⟨hc.1.2, hc.2⟩
    cases h1 : callExpr rt lhs s with
    | none => rw [callExpr.eq_def] at he; simp [h1] at he
    | some p =>
      rcases p with ⟨v1, s1⟩
      have hl : s1.locals = s.locals := ihl hc'.1 v1 s1 h1
      by_cases hb : v1.get_bool
      · cases h2 : callExpr rt rhs s1 with
        | none => rw [callExpr.eq_def] at he; simp [h1, h2, hb] at he
        | some q =>
          rcases q with ⟨v2, s2⟩
          rw [callExpr.eq_def] at he
          simp [h1, h2, hb] at he
          obtain ⟨_, hs⟩ := he
          subst hs
          rw [ihr s1 hc'.2 v2 s2 h2, hl]
      · rw [callExpr.eq_def] at he
        simp [h1, hb] at he
        obtain ⟨_, hs⟩ := he
        subst hs
        exact hl
  -- logic or
  · intro s lhs rhs ihl ihr hc v s' he
    have hc' : containsCtxAssign lhs = false ∧ containsCtxAssign rhs = false := by
      simp only [containsCtxAssign_binary_eq, Bool.or_eq_false_iff] at hc
      exact ⟨hc.1.2, hc.2⟩
    cases h1 : callExpr rt lhs s with
    | none => rw [callExpr.eq_def] at he; simp [h1] at he
    | some p =>
      rcases p with ⟨v1, s1⟩
      have hl : s1.locals = s.locals := ihl hc'.1 v1 s1 h1
      by_cases hb : v1.get_bool
      · rw [callExpr.eq_def] at he
        simp [h1, hb] at he
        obtain ⟨_, hs⟩ := he
        subst hs
        exact hl
      · cases h2 : callExpr rt rhs s1 with
        | none => rw [callExpr.eq_def] at he; simp [h1, h2, hb] at he
        | some q =>
          rcases q with ⟨v2, s2⟩
          rw [callExpr.eq_def] at he
          simp [h1, h2, hb] at he
          obtain ⟨_, hs⟩ := he
          subst hs
          rw [ihr s1 hc'.2 v2 s2 h2, hl]
  -- logic comparison
  · intro s lhs rhs op hna hno ihl ihr hc v s' he
    have hc' : containsCtxAssign lhs = false ∧ containsCtxAssign rhs = false := by
      simp only [containsCtxAssign_binary_eq, Bool.or_eq_false_iff] at hc
      exact ⟨hc.1.2, hc.2⟩
    have hna' : op ≠ .and := fun h => hna h
    have hno' : op ≠ .or := fun h => hno h
    cases op <;> try exact absurd rfl (by assumption)
    all_goals
      cases h1 : callExpr rt lhs s with
      | none => rw [callExpr.eq_def] at he; simp [h1] at he
      | some p =>
        rcases p with ⟨v1, s1⟩
        cases h2 : callExpr rt rhs s1 with
        | none => rw [callExpr.eq_def] at he; simp [h1, h2] at he
        | some q =>
          rcases q with ⟨v2, s2⟩
          rw [callExpr.eq_def] at he
          simp [h1, h2, Option.bind_eq_some] at he
          rcases he with ⟨_, _, hs⟩ | ⟨_, _, hs⟩ <;> subst hs <;>
            rw [ihr s1 hc'.2 v2 s2 h2, ihl hc'.1 v1 s1 h1]
  -- assign
  · intro s lhs rhs ihr hc v s' he
    cases h1 : callExpr rt rhs s with
    | none => rw [callExpr.eq_def] at he; simp [h1] at he
    | some p =>
      rcases p with ⟨v1, s1⟩
      have hrc : containsCtxAssign rhs = false := by
        simp only [containsCtxAssign_binary_eq, Bool.or_eq_false_iff] at hc
        exact hc.2
      have hl : s1.locals = s.locals := ihr hrc v1 s1 h1
      rw [callExpr.eq_def] at he
      cases lhs with
      | ref r =>
        cases r with
        | var n =>
          simp [h1, assign] at he
          obtain ⟨_, hs⟩ := he
          subst hs
          exact hl
        | ctx n => simp [containsCtxAssign_binary_eq, ctxAssignHead] at hc
      | const c => simp [h1, assign] at he
      | unary o e => simp [h1, assign] at he
      | binary a o b => simp [h1, assign] at he
      | call a b c => simp [h1, assign] at he
  -- inplace
  · intro s lhs rhs op ihl ihr hc v s' he
    cases h1 : callExpr rt lhs s with
    | none => rw [callExpr.eq_def] at he; simp [h1] at he
    | some p =>
      rcases p with ⟨v1, s1⟩
      cases h2 : callExpr rt rhs s1 with
      | none => rw [callExpr.eq_def] at he; simp [h1, h2] at he
      | some q =>
        rcases q with ⟨v2, s2⟩
        have hc' : containsCtxAssign lhs = false ∧ containsCtxAssign rhs = false := by
          simp only [containsCtxAssign_binary_eq, Bool.or_eq_false_iff] at hc
          exact ⟨hc.1.2, hc.2⟩
        have hl : s1.locals = s.locals := ihl hc'.1 v1 s1 h1
        have hr : s2.locals = s1.locals := ihr s1 hc'.2 v2 s2 h2
        cases h3 : bin_val v1 op v2 with
        | none => rw [callExpr.eq_def] at he; simp [h1, h2, h3] at he
        | some v3 =>
          rw [callExpr.eq_def] at he
          cases lhs with
          | ref r =>
            cases r with
            | var n =>
              simp [h1, h2, h3, assign] at he
              obtain ⟨_, hs⟩ := he
              subst hs
              rw [hr, hl]
            | ctx n => simp [containsCtxAssign_binary_eq, ctxAssignHead] at hc
          | const c => simp [h1, h2, h3, assign] at he
          | unary o e => simp [h1, h2, h3, assign] at he
          | binary a o b => simp [h1, h2, h3, assign] at he
          | call a b c => simp [h1, h2, h3, assign] at he
  -- if nil
  · intro s _ v s' he
    have he' : some (RawValue.unit, s) = some (v, s') := he
    simp only [Option.some.injEq, Prod.ext_iff] at he'
    rw [← he'.2]
  -- if [c]
  · intro s c ihc hc v s' he
    cases h1 : callExpr rt c s with
    | none => rw [callExpr.eq_def] at he; simp [h1] at he
    | some p =>
      rcases p with ⟨v1, s1⟩
      rw [callExpr.eq_def] at he
      simp [h1] at he
      obtain ⟨_, hs⟩ := he
      subst hs
      exact ihc (by simpa [containsCtxAssign, containsCtxAssignList] using hc) v1 s1 h1
  -- if [c, t]
  · intro s c t ihc iht hc v s' he
    have hc' : containsCtxAssign c = false ∧ containsCtxAssign t = false := by
      simpa [containsCtxAssign, containsCtxAssignList] using hc
    cases h1 : callExpr rt c s with
    | none => rw [callExpr.eq_def] at he; simp [h1] at he
    | some p =>
      rcases p with ⟨v1, s1⟩
      have hl : s1.locals = s.locals := ihc hc'.1 v1 s1 h1
      rw [callExpr.eq_def] at he
      by_cases hb : v1.get_bool
      · simp [h1, hb] at he
        rw [iht s1 hc'.2 v s' he, hl]
      · simp [h1, hb] at he
        obtain ⟨_, hs⟩ := he
        subst hs
        exact hl
  -- if [c, t, e, ...]
  · intro s c t e es ihc iht ihe hc v s' he
    have hc' : containsCtxAssign c = false ∧ containsCtxAssign t = false ∧
        containsCtxAssign e = false := by
      simp [containsCtxAssign, containsCtxAssignList] at hc
      tauto
    cases h1 : callExpr rt c s with
    | none => rw [callExpr.eq_def] at he; simp [h1] at he
    | some p =>
      rcases p with ⟨v1, s1⟩
      have hl : s1.locals = s.locals := ihc hc'.1 v1 s1 h1
      rw [callExpr.eq_def] at he
      by_cases hb : v1.get_bool
      · simp [h1, hb] at he
        rw [iht s1 hc'.2.1 v s' he, hl]
      · simp [h1, hb] at he
        rw [ihe s1 hc'.2.2 v s' he, hl]
  -- unknown intrinsic
  · intro s nm args hnm _ v s' he
    rw [callExpr.eq_def] at he
    simp [hnm] at he
  -- module call
  · intro s ns nm args hns ihargs hc v s' he
    cases h1 : evalArgs rt args s with
    | none => rw [callExpr.eq_def] at he; simp [hns, h1] at he
    | some p =>
      rcases p with ⟨vs, s1⟩
      have hl : s1.locals = s.locals :=
        ihargs (by simpa [containsCtxAssign] using hc) vs s1 h1
      cases hm : rt.module ns with
      | none =>
        rw [callExpr.eq_def] at he
        simp [hns, h1, hm] at he
        obtain ⟨_, hs⟩ := he
        subst hs
        exact hl
      | some m =>
        cases hd : m.dispatch_method nm vs with
        | none =>
          rw [callExpr.eq_def] at he
          simp [hns, h1, hm, hd] at he
          obtain ⟨_, hs⟩ := he
          subst hs
          exact hl
        | some v2 =>
          rw [callExpr.eq_def] at he
          simp [hns, h1, hm, hd] at he
          obtain ⟨_, hs⟩ := he
          subst hs
          exact hl
  -- args nil
  · intro s _ vs s' he
    have he' : some (([] : List RawValue), s) = some (vs, s') := he
    simp only [Option.some.injEq, Prod.ext_iff] at he'
    rw [← he'.2]
  -- args cons
  · intro s a args iha ihargs hc vs s' he
    have hc' : containsCtxAssign a = false ∧ containsCtxAssignList args = false := by
      simpa [containsCtxAssignList] using hc
    cases h1 : callExpr rt a s with
    | none => rw [evalArgs.eq_def] at he; simp [h1] at he
    | some p =>
      rcases p with ⟨v1, s1⟩
      cases h2 : evalArgs rt args s1 with
      | none => rw [evalArgs.eq_def] at he; simp [h1, h2] at he
      | some q =>
        rcases q with ⟨vs2, s2⟩
        rw [evalArgs.eq_def] at he
        simp [h1, h2] at he
        obtain ⟨_, hs⟩ := he
        subst hs
        rw [ihargs s1 hc'.2 vs2 s2 h2, iha hc'.1 v1 s1 h1]

/-- C5: the record locals are unchanged by any successful expression
evaluation unless the expression contains an assignment or in-place
assignment whose left side is a context reference (`$x = …` or
`$x op= …`). -/
theorem c5_locals_frame (rt : Runtime) (e : Expr) (s : EvalState)
    (v : RawValue) (s' : EvalState)
    (hc : containsCtxAssign e = false)
    (he : callExpr rt e s = some (v, s')) : s'.locals = s.locals :=
  locals_frame_aux rt e s hc v s' he

/-- C5 (witness): a temp-variable assignment `a = 5` satisfies the frame
hypotheses and leaves the locals untouched. -/
theorem c5_locals_frame_witness :
    containsCtxAssign (.binary (.ref (.var "a")) .assign (numE 5)) = false ∧
    st0.locals = st0.locals :=
  ⟨by decide,
    c5_locals_frame rtEmpty (.binary (.ref (.var "a")) .assign (numE 5)) st0
      .unit ⟨[], [("a", .num 5)], []⟩ (by decide) (by decide)⟩


/-- Lookup after inserting the same key. -/
theorem SMap.get_insert_self (m : SMap α) (k : String) (v : α) :
    ((m.insert k v).1).get k = some v := by
  simp [SMap.insert, SMap.get, List.find?]

/-- Filtering out another key does not change a lookup. -/
theorem find?_key_filter (k k' : String) (h : k' ≠ k) :
    ∀ l : List (String × α),
      List.find? (fun p => p.1 == k') (List.filter (fun p => p.1 != k) l) =
        List.find? (fun p => p.1 == k') l
  | [] => rfl
  | a :: l => by
    by_cases ha : a.1 = k
    · rw [List.filter_cons_of_neg (by simp [ha])]
      rw [find?_key_filter k k' h l]
      rw [List.find?_cons_of_neg _ (by simp [ha]; exact fun hh => h hh.symm)]
    · rw [List.filter_cons_of_pos (by simp [ha])]
      by_cases ha' : a.1 = k'
      · rw [List.find?_cons_of_pos _ (by simp [ha']),
          List.find?_cons_of_pos _ (by simp [ha'])]
      · rw [List.find?_cons_of_neg _ (by simp [ha']),
          List.find?_cons_of_neg _ (by simp [ha'])]
        exact find?_key_filter k k' h l

/-- Lookup after inserting a different key. -/
theorem SMap.get_insert_ne (m : SMap α) (k k' : String) (v : α) (h : k' ≠ k) :
    ((m.insert k v).1).get k' = m.get k' := by
  simp only [SMap.insert, SMap.get]
  rw [List.find?_cons_of_neg _ (by simp; exact fun hh => h hh.symm)]
  rw [find?_key_filter k k' h m]

/-- Registering commands not containing `c` does not change `c`'s
entry. -/
theorem registerCmds_get_of_not_mem (n c : String) :
    ∀ (cmds : List String) (table : SMap String)
      (ws : List (String × String × String)),
      c ∉ cmds → ((registerCmds n cmds table ws).1).get c = table.get c
  | [], _, _, _ => rfl
  | cmd :: rest, table, ws, h => by
    have hcmd : c ≠ cmd := fun hh => h (hh ▸ List.mem_cons_self _ _)
    have hrest : c ∉ rest := fun hh => h (List.mem_cons_of_mem _ hh)
    have hun : registerCmds n (cmd :: rest) table ws =
        (match table.get cmd with
          | some oldm =>
            registerCmds n rest (table.insert cmd n).1 (ws ++ [(cmd, n, oldm)])
          | none => registerCmds n rest (table.insert cmd n).1 ws) := rfl
    cases hget : table.get cmd with
    | none =>
      rw [hget] at hun
      rw [hun, registerCmds_get_of_not_mem n c rest _ _ hrest,
        SMap.get_insert_ne _ _ _ _ hcmd]
    | some oldm =>
      rw [hget] at hun
      rw [hun, registerCmds_get_of_not_mem n c rest _ _ hrest,
        SMap.get_insert_ne _ _ _ _ hcmd]

/-- After registering a command list containing `c`, the table maps `c`
to the registering module. -/
theorem registerCmds_get_of_mem (n c : String) :
    ∀ (cmds : List String) (table : SMap String)
      (ws : List (String × String × String)),
      c ∈ cmds → ((registerCmds n cmds table ws).1).get c = some n
  | [], _, _, h => absurd h (List.not_mem_nil c)
  | cmd :: rest, table, ws, h => by
    have hun : registerCmds n (cmd :: rest) table ws =
        (match table.get cmd with
          | some oldm =>
            registerCmds n rest (table.insert cmd n).1 (ws ++ [(cmd, n, oldm)])
          | none => registerCmds n rest (table.insert cmd n).1 ws) := rfl
    by_cases hr : c ∈ rest
    · cases hget : table.get cmd <;> rw [hget] at hun <;>
        rw [hun, registerCmds_get_of_mem n c rest _ _ hr]
    · have hc : c = cmd := by
        rcases List.mem_cons.mp h with h1 | h2
        · exact h1
        · exact absurd h2 hr
      subst hc
      cases hget : table.get c <;> rw [hget] at hun <;>
        rw [hun, registerCmds_get_of_not_mem n c rest _ _ hr,
          SMap.get_insert_self]

/-- Command registration only appends warnings. -/
theorem registerCmds_warn_mono (n : String) :
    ∀ (cmds : List String) (table : SMap String)
      (ws : List (String × String × String)) (w : String × String × String),
      w ∈ ws → w ∈ (registerCmds n cmds table ws).2
  | [], _, _, _, h => h
  | cmd :: rest, table, ws, w, h => by
    have hun : registerCmds n (cmd :: rest) table ws =
        (match table.get cmd with
          | some oldm =>
            registerCmds n rest (table.insert cmd n).1 (ws ++ [(cmd, n, oldm)])
          | none => registerCmds n rest (table.insert cmd n).1 ws) := rfl
    cases hget : table.get cmd <;> rw [hget] at hun <;> rw [hun]
    · exact registerCmds_warn_mono n rest _ _ w h
    · exact registerCmds_warn_mono n rest _ _ w (List.mem_append_left _ h)

/-- Registering a command that already has an owner records an override
warning naming the new and the old module. -/
theorem registerCmds_warn_of_mem (n c old : String) :
    ∀ (cmds : List String) (table : SMap String)
      (ws : List (String × String × String)),
      c ∈ cmds → table.get c = some old →
      (c, n, old) ∈ (registerCmds n cmds table ws).2
  | [], _, _, h, _ => absurd h (List.not_mem_nil c)
  | cmd :: rest, table, ws, h, hold => by
    have hun : registerCmds n (cmd :: rest) table ws =
        (match table.get cmd with
          | some oldm =>
            registerCmds n rest (table.insert cmd n).1 (ws ++ [(cmd, n, oldm)])
          | none => registerCmds n rest (table.insert cmd n).1 ws) := rfl
    by_cases hc : c = cmd
    · subst hc
      rw [hold] at hun
      rw [hun]
      exact registerCmds_warn_mono n rest _ _ _
        (List.mem_append_right _ (List.mem_singleton.mpr rfl))
    · have hr : c ∈ rest := by
        rcases List.mem_cons.mp h with h1 | h2
        · exact absurd h1 hc
        · exact h2
      have hold' : ((table.insert cmd n).1).get c = some old := by
        rw [SMap.get_insert_ne _ _ _ _ hc]
        exact hold
      cases hget : table.get cmd <;> rw [hget] at hun <;> rw [hun]
      · exact registerCmds_warn_of_mem n c old rest _ _ hr hold'
      · exact registerCmds_warn_of_mem n c old rest _ _ hr hold'

/-- Loading modules that do not advertise `c` (as a text command) leaves
`c`'s text entry unchanged. -/
theorem loadFrom_text_get (c : String) :
    ∀ (A : List (String × PluginType)) (k : Nat) (st : LoadState),
      (∀ q ∈ A, c ∉ q.2.text) →
      (loadFrom k st A).text_modules.get c = st.text_modules.get c
  | [], _, _, _ => rfl
  | (n, pt) :: A, k, st, h => by
    show (loadFrom (k + 1) (loadStep k st n pt) A).text_modules.get c = _
    rw [loadFrom_text_get c A (k + 1) (loadStep k st n pt)
      (fun q hq => h q (List.mem_cons_of_mem _ hq))]
    show ((registerCmds n pt.text st.text_modules st.warnings).1).get c = _
    rw [registerCmds_get_of_not_mem n c pt.text _ _
      (h (n, pt) (List.mem_cons_self _ _))]

/-- Loading modules that do not advertise `c` (as a line command) leaves
`c`'s line entry unchanged. -/
theorem loadFrom_line_get (c : String) :
    ∀ (A : List (String × PluginType)) (k : Nat) (st : LoadState),
      (∀ q ∈ A, c ∉ q.2.line) →
      (loadFrom k st A).line_modules.get c = st.line_modules.get c
  | [], _, _, _ => rfl
  | (n, pt) :: A, k, st, h => by
    show (loadFrom (k + 1) (loadStep k st n pt) A).line_modules.get c = _
    rw [loadFrom_line_get c A (k + 1) (loadStep k st n pt)
      (fun q hq => h q (List.mem_cons_of_mem _ hq))]
    show ((registerCmds n pt.line st.line_modules
      (registerCmds n pt.text st.text_modules st.warnings).2).1).get c = _
    rw [registerCmds_get_of_not_mem n c pt.line _ _
      (h (n, pt) (List.mem_cons_self _ _))]

/-- Loading only appends warnings. -/
theorem loadFrom_warn_mono (w : String × String × String) :
    ∀ (A : List (String × PluginType)) (k : Nat) (st : LoadState),
      w ∈ st.warnings → w ∈ (loadFrom k st A).warnings
  | [], _, _, h => h
  | (n, pt) :: A, k, st, h => by
    show w ∈ (loadFrom (k + 1) (loadStep k st n pt) A).warnings
    refine loadFrom_warn_mono w A (k + 1) (loadStep k st n pt) ?_
    show w ∈ (registerCmds n pt.line st.line_modules
      (registerCmds n pt.text st.text_modules st.warnings).2).2
    exact registerCmds_warn_mono _ _ _ _ _
      (registerCmds_warn_mono _ _ _ _ _ h)

/-- Loading modules with other names leaves a module entry unchanged. -/
theorem loadFrom_modules_get (nm : String) :
    ∀ (A : List (String × PluginType)) (k : Nat) (st : LoadState),
      (∀ q ∈ A, q.1 ≠ nm) →
      (loadFrom k st A).modules.get nm = st.modules.get nm
  | [], _, _, _ => rfl
  | (n, pt) :: A, k, st, h => by
    show (loadFrom (k + 1) (loadStep k st n pt) A).modules.get nm = _
    rw [loadFrom_modules_get nm A (k + 1) (loadStep k st n pt)
      (fun q hq => h q (List.mem_cons_of_mem _ hq))]
    show ((st.modules.insert n k).1).get nm = _
    rw [SMap.get_insert_ne _ _ _ _
      (fun hh => h (n, pt) (List.mem_cons_self _ _) hh.symm)]

/-- Splitting a load into two segments. -/
theorem loadFrom_append :
    ∀ (A B : List (String × PluginType)) (k : Nat) (st : LoadState),
      loadFrom k st (A ++ B) = loadFrom (k + A.length) (loadFrom k st A) B
  | [], B, k, st => by simp [loadFrom]
  | (n, pt) :: A, B, k, st => by
    show loadFrom (k + 1) (loadStep k st n pt) (A ++ B) = _
    rw [loadFrom_append A B (k + 1) (loadStep k st n pt)]
    have hlen : k + 1 + A.length = k + (A.length + 1) := by omega
    rw [hlen]
    rfl

set_option maxHeartbeats 1000000 in
/-- C9: when a module `nj` loaded after a module `ni` advertises the same
text command `c` (and no other loaded module advertises `c` as a text
command), the text-command table maps `c` to the later module `nj`, a
warning naming both modules is recorded at registration, and the
text-command lookup routes to the later module's host (identified by its
load position); and the same holds for a duplicated line command with the
line-command table and lookup. -/
theorem c9_later_module_wins
    (L1 L2 L3 : List (String × PluginType)) (ni nj c : String)
    (pi pj : PluginType)
    (hname : ∀ q ∈ L3, q.1 ≠ nj) :
    (c ∈ pi.text → c ∈ pj.text →
      (∀ q ∈ L1, c ∉ q.2.text) → (∀ q ∈ L2, c ∉ q.2.text) →
      (∀ q ∈ L3, c ∉ q.2.text) →
      (loadPlugins (L1 ++ (ni, pi) :: (L2 ++ (nj, pj) :: L3))).text_modules.get c =
          some nj
      ∧ (c, nj, ni) ∈
          (loadPlugins (L1 ++ (ni, pi) :: (L2 ++ (nj, pj) :: L3))).warnings
      ∧ (loadPlugins (L1 ++ (ni, pi) :: (L2 ++ (nj, pj) :: L3))).text_module c =
          some (L1.length + 1 + L2.length))
    ∧ (c ∈ pi.line → c ∈ pj.line →
      (∀ q ∈ L1, c ∉ q.2.line) → (∀ q ∈ L2, c ∉ q.2.line) →
      (∀ q ∈ L3, c ∉ q.2.line) →
      (loadPlugins (L1 ++ (ni, pi) :: (L2 ++ (nj, pj) :: L3))).line_modules.get c =
          some nj
      ∧ (c, nj, ni) ∈
          (loadPlugins (L1 ++ (ni, pi) :: (L2 ++ (nj, pj) :: L3))).warnings
      ∧ (loadPlugins (L1 ++ (ni, pi) :: (L2 ++ (nj, pj) :: L3))).line_module c =
          some (L1.length + 1 + L2.length)) := by
  have hfin : loadPlugins (L1 ++ (ni, pi) :: (L2 ++ (nj, pj) :: L3)) =
      loadFrom (L1.length + 1 + L2.length + 1)
        (loadStep (L1.length + 1 + L2.length)
          (loadFrom (L1.length + 1)
            (loadStep L1.length (loadFrom 0 emptyLoadState L1) ni pi) L2)
          nj pj)
        L3 := by
    show loadFrom 0 emptyLoadState (L1 ++ (ni, pi) :: (L2 ++ (nj, pj) :: L3)) = _
    rw [loadFrom_append L1 ((ni, pi) :: (L2 ++ (nj, pj) :: L3)) 0 emptyLoadState]
    show loadFrom (0 + L1.length + 1)
      (loadStep (0 + L1.length) (loadFrom 0 emptyLoadState L1) ni pi)
      (L2 ++ (nj, pj) :: L3) = _
    rw [loadFrom_append L2 ((nj, pj) :: L3) (0 + L1.length + 1) _]
    have h0 : 0 + L1.length = L1.length := by omega
    rw [h0]
    rfl
  have m1 : (loadStep (L1.length + 1 + L2.length)
      (loadFrom (L1.length + 1)
        (loadStep L1.length (loadFrom 0 emptyLoadState L1) ni pi) L2)
      nj pj).modules.get nj = some (L1.length + 1 + L2.length) := by
    show ((SMap.insert _ nj (L1.length + 1 + L2.length)).1).get nj = _
    exact SMap.get_insert_self _ _ _
  have m2 : (loadPlugins (L1 ++ (ni, pi) :: (L2 ++ (nj, pj) :: L3))).modules.get nj =
      some (L1.length + 1 + L2.length) := by
    rw [hfin, loadFrom_modules_get nj L3 _ _ hname]
    exact m1
  constructor
  · intro hci hcj hL1 hL2 hL3
    have f3 : (loadFrom (L1.length + 1)
        (loadStep L1.length (loadFrom 0 emptyLoadState L1) ni pi)
        L2).text_modules.get c = some ni := by
      rw [loadFrom_text_get c L2 (L1.length + 1) _ hL2]
      show ((registerCmds ni pi.text (loadFrom 0 emptyLoadState L1).text_modules
        (loadFrom 0 emptyLoadState L1).warnings).1).get c = some ni
      exact registerCmds_get_of_mem ni c pi.text _ _ hci
    have f5 : (loadPlugins
        (L1 ++ (ni, pi) :: (L2 ++ (nj, pj) :: L3))).text_modules.get c =
        some nj := by
      rw [hfin, loadFrom_text_get c L3 _ _ hL3]
      show ((registerCmds nj pj.text _ _).1).get c = some nj
      exact registerCmds_get_of_mem nj c pj.text _ _ hcj
    have w3 : (c, nj, ni) ∈
        (loadPlugins (L1 ++ (ni, pi) :: (L2 ++ (nj, pj) :: L3))).warnings := by
      rw [hfin]
      refine loadFrom_warn_mono _ L3 _ _ ?_
      show (c, nj, ni) ∈ (registerCmds nj pj.line _
        (registerCmds nj pj.text _ _).2).2
      exact registerCmds_warn_mono _ _ _ _ _
        (registerCmds_warn_of_mem nj c ni pj.text _ _ hcj f3)
    refine ⟨f5, w3, ?_⟩
    show ((loadPlugins _).text_modules.get c).bind
      (fun key => (loadPlugins _).modules.get key) =
      some (L1.length + 1 + L2.length)
    rw [f5]
    show (loadPlugins _).modules.get nj = _
    exact m2
  · intro hci hcj hL1 hL2 hL3
    have f3 : (loadFrom (L1.length + 1)
        (loadStep L1.length (loadFrom 0 emptyLoadState L1) ni pi)
        L2).line_modules.get c = some ni := by
      rw [loadFrom_line_get c L2 (L1.length + 1) _ hL2]
      show ((registerCmds ni pi.line (loadFrom 0 emptyLoadState L1).line_modules
        (registerCmds ni pi.text (loadFrom 0 emptyLoadState L1).text_modules
          (loadFrom 0 emptyLoadState L1).warnings).2).1).get c = some ni
      exact registerCmds_get_of_mem ni c pi.line _ _ hci
    have f5 : (loadPlugins
        (L1 ++ (ni, pi) :: (L2 ++ (nj, pj) :: L3))).line_modules.get c =
        some nj := by
      rw [hfin, loadFrom_line_get c L3 _ _ hL3]
      show ((registerCmds nj pj.line _ _).1).get c = some nj
      exact registerCmds_get_of_mem nj c pj.line _ _ hcj
    have w3 : (c, nj, ni) ∈
        (loadPlugins (L1 ++ (ni, pi) :: (L2 ++ (nj, pj) :: L3))).warnings := by
      rw [hfin]
      refine loadFrom_warn_mono _ L3 _ _ ?_
      show (c, nj, ni) ∈ (registerCmds nj pj.line _
        (registerCmds nj pj.text _ _).2).2
      exact registerCmds_warn_of_mem nj c ni pj.line _ _ hcj f3
    refine ⟨f5, w3, ?_⟩
    show ((loadPlugins _).line_modules.get c).bind
      (fun key => (loadPlugins _).modules.get key) =
      some (L1.length + 1 + L2.length)
    rw [f5]
    show (loadPlugins _).modules.get nj = _
    exact m2

/-- C9 (witness): two plugins both advertising `t` as a text and a line
command; the second wins in both tables, the override warning is
recorded, and both lookups route to host 1. -/
theorem c9_later_module_wins_witness :
    (loadPlugins [("m1", ⟨false, ["t"], ["t"], false⟩),
        ("m2", ⟨false, ["t"], ["t"], false⟩)]).text_modules.get "t" = some "m2"
    ∧ ("t", "m2", "m1") ∈ (loadPlugins [("m1", ⟨false, ["t"], ["t"], false⟩),
        ("m2", ⟨false, ["t"], ["t"], false⟩)]).warnings
    ∧ (loadPlugins [("m1", ⟨false, ["t"], ["t"], false⟩),
        ("m2", ⟨false, ["t"], ["t"], false⟩)]).text_module "t" = some 1
    ∧ (loadPlugins [("m1", ⟨false, ["t"], ["t"], false⟩),
        ("m2", ⟨false, ["t"], ["t"], false⟩)]).line_modules.get "t" = some "m2"
    ∧ (loadPlugins [("m1", ⟨false, ["t"], ["t"], false⟩),
        ("m2", ⟨false, ["t"], ["t"], false⟩)]).line_module "t" = some 1 := by
  have h := c9_later_module_wins [] [] [] "m1" "m2" "t"
    ⟨false, ["t"], ["t"], false⟩ ⟨false, ["t"], ["t"], false⟩
    (by intro q hq; exact absurd hq (List.not_mem_nil q))
  have ht := h.1 (by decide) (by decide)
    (by intro q hq; exact absurd hq (List.not_mem_nil q))
    (by intro q hq; exact absurd hq (List.not_mem_nil q))
    (by intro q hq; exact absurd hq (List.not_mem_nil q))
  have hl := h.2 (by decide) (by decide)
    (by intro q hq; exact absurd hq (List.not_mem_nil q))
    (by intro q hq; exact absurd hq (List.not_mem_nil q))
    (by intro q hq; exact absurd hq (List.not_mem_nil q))
  refine ⟨?_, ?_, ?_, ?_, ?_⟩
  · simpa using ht.1
  · simpa using ht.2.1
  · simpa using ht.2.2
  · simpa using hl.1
  · simpa using hl.2.2

end Ayaka
